import Mathlib

/-!
# Verification of drogon's Server-Sent Events (SSE) core

Shallow embedding of drogon's SSE client/server core:

* `SseEventParser` — the incremental line/event decoder
  (`lib/src/SseEventParser.cc`),
* `SseClientContext` — the HTTP framing state machine and connection
  lifecycle (`lib/src/SseClientContext.h` / `.cc`),
* `SseWriter.formatEvent` — the server-side event formatter
  (`SseWriter.cc`).

Byte strings are modelled as `List Char` (each `Char` standing for one
byte); C++ `std::string` operations are translated operation by
operation.  C++ `int` is modelled as `Int` and `size_t` as `Nat`
(values in the claims stay far from the overflow range; where a
wrap-around conversion occurs in the source it is modelled explicitly,
see `toSizeT`).
-/

namespace drogon

/-- Shorthand: the byte list of a string literal. -/
def str (s : String) : List Char := s.data

/-! ## List scanning helpers (MsgBuffer / std::string searches) -/

/-- `std::find(first, last, c)` as a splitter: `some (before, after)`
splits the list around the first occurrence of `c`; `none` when `c`
does not occur. -/
def splitAtChar (c : Char) : List Char → Option (List Char × List Char)
  | [] => none
  | x :: xs =>
    if x = c then some ([], xs)
    else (splitAtChar c xs).map (fun p => (x :: p.1, p.2))

/-- `trantor::MsgBuffer::findCRLF` as a splitter: splits the buffer
around the first `"\r\n"`; `none` when no CRLF is present. -/
def splitAtCRLF : List Char → Option (List Char × List Char)
  | '\r' :: '\n' :: rest => some ([], rest)
  | x :: xs => (splitAtCRLF xs).map (fun p => (x :: p.1, p.2))
  | [] => none

/-- One ASCII byte of `tolower` (the header-field lowering in
`SseClientContext::parseHeaders`). -/
def lowerC (c : Char) : Char :=
  if 'A' ≤ c ∧ c ≤ 'Z' then Char.ofNat (c.toNat + 32) else c

/-- `isspace` for the `strtol`/`atoi` whitespace prefix. -/
def isSpaceC (c : Char) : Bool :=
  c = ' ' || c = '\t' || c = '\n' || c = '\x0b' || c = '\x0c' || c = '\r'

/-- Numeric value of the longest leading run of decimal digits
(0 when there is none). -/
def decPrefixVal : List Char → Nat → Nat
  | c :: cs, acc => if c.isDigit then decPrefixVal cs (acc * 10 + (c.toNat - 48)) else acc
  | [], acc => acc

/-- `atoi` on a value already checked to be all ASCII digits (the only
way `SseEventParser::processLine` calls it for `retry`). -/
def atoiDigits (l : List Char) : Int :=
  l.foldl (fun a c => a * 10 + ((c.toNat : Int) - 48)) 0

/-- `std::atoi` on an arbitrary token (used on the status-code token):
skip whitespace, optional sign, then a decimal-digit prefix; never
fails, yielding 0 when no digits are found. -/
def atoiFull (l : List Char) : Int :=
  match l.dropWhile isSpaceC with
  | '-' :: rest => - (decPrefixVal rest 0 : Int)
  | '+' :: rest => (decPrefixVal rest 0 : Int)
  | l1 => (decPrefixVal l1 0 : Int)

/-- Value of one hexadecimal digit, `none` for a non-hex-digit. -/
def hexDigitVal? (c : Char) : Option Nat :=
  if '0' ≤ c ∧ c ≤ '9' then some (c.toNat - 48)
  else if 'a' ≤ c ∧ c ≤ 'f' then some (c.toNat - 87)
  else if 'A' ≤ c ∧ c ≤ 'F' then some (c.toNat - 55)
  else none

/-- Numeric value of the longest leading run of hex digits. -/
def hexPrefixVal : List Char → Nat → Nat
  | c :: cs, acc =>
    match hexDigitVal? c with
    | some d => hexPrefixVal cs (acc * 16 + d)
    | none => acc
  | [], acc => acc

/-- `strtol(s, &end, 16)` on the chunk-size line: skip whitespace, an
optional sign, an optional `0x`/`0X` prefix, then the hex-digit run;
an invalid token yields 0, and a value outside the range of `long` is
clamped to `LONG_MAX` / `LONG_MIN` (`long` is modelled as the 64-bit
type of the LP64 platforms the library targets, so `LONG_MAX` is
`2^63 - 1` and `LONG_MIN` is `-2^63`). -/
def strtol16 (l : List Char) : Int :=
  let l1 := l.dropWhile isSpaceC
  let signed : Bool × List Char :=
    match l1 with
    | '-' :: r => (true, r)
    | '+' :: r => (false, r)
    | _ => (false, l1)
  let l3 : List Char :=
    match signed.2 with
    | '0' :: x :: r =>
      if (x = 'x' ∨ x = 'X') ∧ (hexDigitVal? (r.headD '0')).isSome then r
      else signed.2
    | l2 => l2
  let mag : Int := (hexPrefixVal l3 0 : Int)
  if signed.1 then
    if mag > 2 ^ 63 then -(2 ^ 63) else -mag
  else
    if mag > 2 ^ 63 - 1 then 2 ^ 63 - 1 else mag

/-- The `size_t` cast of a `long` in `currentChunkLength_ = strtol(...)`:
reduction mod 2^64. -/
def toSizeT (i : Int) : Nat := (i % (2 ^ 64)).toNat

/-- `std::stoull` on the Content-Length value.  (The source calls it
unguarded; on a value with no leading digits the real function throws —
none of the verified claims exercises that case, so the model totalises
it to the decimal prefix value.) -/
def stoullModel (l : List Char) : Nat :=
  match l.dropWhile isSpaceC with
  | '+' :: rest => decPrefixVal rest 0
  | l1 => decPrefixVal l1 0

/-! ## SseEvent (`SseEvent.h`) -/

/-- The SSE event value type: type, data, id, retry hint
(`struct SseEvent`). -/
structure SseEvent where
  event : List Char
  data : List Char
  id : List Char
  retry : Int
deriving DecidableEq

/-- `SseEvent::newEvent()`: all fields empty, retry 0. -/
def SseEvent.newEvent : SseEvent :=
  { event := [], data := [], id := [], retry := 0 }

/-- `SseEvent::isValid()`: an event is dispatchable iff data is
non-empty. -/
def SseEvent.isValid (e : SseEvent) : Bool := !e.data.isEmpty

/-! ## SseEventParser (`SseEventParser.cc`) -/

/-- Decoder state: the pending event accumulator and the sticky
last-event-id.  (The members `currentEvent_` and `lastEventId_` are
declared in `SseEventParser.h`, which is not among the sources; their
initial values — a fresh event and the empty id — are evident from
`SseEventParser.cc` (`dispatchEvent` installs `SseEvent::newEvent()`)
and from the spec's data model.) -/
structure SseEventParser where
  currentEvent : SseEvent
  lastEventId : List Char
deriving DecidableEq

/-- Initial decoder state (fresh pending event, no last-event-id). -/
def SseEventParser.init : SseEventParser :=
  { currentEvent := SseEvent.newEvent, lastEventId := [] }

/-- Strip one `'\r'` immediately before the line terminator
(`if (lineLen > 0 && data[lineLen-1] == '\r') --lineLen;`). -/
def stripTrailingCR (l : List Char) : List Char :=
  if l.getLast? = some '\r' then l.dropLast else l

/-- `SseEventParser::dispatchEvent`: if the pending event is valid,
default its type to "message" when empty and emit it; always install
a fresh pending event. -/
def SseEventParser.dispatchEvent (st : SseEventParser) :
    SseEventParser × Option SseEvent :=
  if st.currentEvent.isValid then
    let ev :=
      if st.currentEvent.event.isEmpty then
        { st.currentEvent with event := str "message" }
      else st.currentEvent
    ({ st with currentEvent := SseEvent.newEvent }, some ev)
  else
    ({ st with currentEvent := SseEvent.newEvent }, none)

/-- The field/value split of `SseEventParser::processLine`: split at
the first `':'` (no colon: the whole line is the field name, empty
value), then strip at most one space after the colon. -/
def fieldValue (line : List Char) : List Char × List Char :=
  match splitAtChar ':' line with
  | none => (line, [])
  | some (f, rest) =>
    match rest with
    | ' ' :: v => (f, v)
    | v => (f, v)

/-- `SseEventParser::processLine`: returns the updated state and the
event dispatched by this line, if any. -/
def SseEventParser.processLine (st : SseEventParser) (line : List Char) :
    SseEventParser × Option SseEvent :=
  if line.isEmpty then st.dispatchEvent
  else if line.head? = some ':' then (st, none)
  else
    let fv := fieldValue line
    let field := fv.1
    let value := fv.2
    if field = str "event" then
      ({ st with currentEvent := { st.currentEvent with event := value } }, none)
    else if field = str "data" then
      let d := st.currentEvent.data
      let d' := if d.isEmpty then value else d ++ '\n' :: value
      ({ st with currentEvent := { st.currentEvent with data := d' } }, none)
    else if field = str "id" then
      if value.contains '\x00' then (st, none)
      else
        ({ st with currentEvent := { st.currentEvent with id := value },
                   lastEventId := value }, none)
    else if field = str "retry" then
      if !value.isEmpty && value.all Char.isDigit then
        ({ st with currentEvent :=
            { st.currentEvent with retry := atoiDigits value } }, none)
      else (st, none)
    else (st, none)

/-- Result of one `SseEventParser::parse` call: the updated decoder
state, the bytes left unconsumed in the caller's buffer (the incomplete
trailing line), and the events dispatched during the call, in order. -/
structure FeedResult where
  st : SseEventParser
  leftover : List Char
  events : List SseEvent
deriving DecidableEq

/-- The scan loop of `SseEventParser::parse`, with the current
partial line accumulated in reverse in `acc`: on each `'\n'` the
accumulated line (with one trailing `'\r'` stripped) goes through
`processLine`; at end of input the partial line stays buffered. -/
def SseEventParser.parseGo (st : SseEventParser) (acc : List Char) :
    List Char → FeedResult
  | [] => ⟨st, acc.reverse, []⟩
  | c :: cs =>
    if c = '\n' then
      let p := st.processLine (stripTrailingCR acc.reverse)
      let q := SseEventParser.parseGo p.1 [] cs
      ⟨q.st, q.leftover, p.2.toList ++ q.events⟩
    else
      SseEventParser.parseGo st (c :: acc) cs

/-- `SseEventParser::parse`: repeatedly extract complete lines
(terminated by `'\n'`, optional preceding `'\r'` stripped) and feed
them to `processLine`; an incomplete trailing line is left in the
buffer. -/
def SseEventParser.parse (st : SseEventParser) (buf : List Char) : FeedResult :=
  st.parseGo [] buf

/-! ## The HTTP response object at the interface boundary -/

/-- Modelled from the spec: the HTTP response object
(`HttpResponseImpl`) is an external collaborator, not among the
sources; §6 consumes exactly its status line (version + numeric status
code) and the header map.  A status code of 0 plays `kUnknown`;
`version` is 11/10 for HTTP/1.1, HTTP/1.0 and 0 while unset. -/
structure HttpResponseModel where
  statusCode : Int
  version : Nat
  headers : List (List Char × List Char)
deriving DecidableEq

/-- Fresh response object (`std::make_shared<HttpResponseImpl>()`). -/
def HttpResponseModel.init : HttpResponseModel :=
  { statusCode := 0, version := 0, headers := [] }

/-- Modelled from the spec: `addHeader` stores `field → value` with
map semantics (a later addition overwrites an earlier one). -/
def HttpResponseModel.addHeader (r : HttpResponseModel) (f v : List Char) :
    HttpResponseModel :=
  { r with headers := (f, v) :: r.headers.filter (fun p => !(p.1 == f)) }

/-- Modelled from the spec: `getHeaderBy` returns the stored value for
a (lower-case) field name, or the empty string when absent. -/
def HttpResponseModel.getHeaderBy (r : HttpResponseModel) (f : List Char) :
    List Char :=
  match r.headers.find? (fun p => p.1 == f) with
  | some p => p.2
  | none => []

/-! ## SseClientContext (`SseClientContext.h` / `.cc`) -/

/-- `SseClientContext::Status`. -/
inductive Status
  | ExpectHeaders
  | ExpectBody
  | Closed
deriving DecidableEq

/-- State of `SseClientContext`: lifecycle status, accumulated
response, the decoder (constructed at the header/body transition),
the timeout flag, the one-shot closed-callback guard, and the framing
sub-state (chunked progress or content-length bookkeeping). -/
structure SseClientContext where
  status : Status
  response : Option HttpResponseModel
  parser : Option SseEventParser
  timedOut : Bool
  closedCallbackInvoked : Bool
  isChunked : Bool
  currentChunkLength : Nat
  expectChunkLength : Bool
  contentLength : Nat
  bytesRead : Nat
deriving DecidableEq

/-- A freshly constructed context (the constructor plus the member
initialisers of `SseClientContext`). -/
def SseClientContext.init : SseClientContext :=
  { status := Status.ExpectHeaders, response := none, parser := none,
    timedOut := false, closedCallbackInvoked := false, isChunked := false,
    currentChunkLength := 0, expectChunkLength := false,
    contentLength := 0, bytesRead := 0 }

/-- `SseClientContext::processResponseLine`: the first space must be
preceded by `'1'` (HTTP/1.1) or `'0'` (HTTP/1.0), and a second space
must exist; the token between the two spaces goes through `atoi` into
the status code.  `none` is the `return false` hard failure.
(When the line *starts* with a space the source reads the byte before
the line start — out of the line's range; the model rejects there, and
every theorem about this function carries the hypothesis that the line
does not start with a space.  The source also records the version even
when it subsequently fails on the missing second space; that partial
mutation is dropped with the failure here, and no claim observes it.) -/
def processResponseLine (resp : HttpResponseModel) (line : List Char) :
    Option HttpResponseModel :=
  match splitAtChar ' ' line with
  | none => none
  | some (tok1, rest) =>
    let v? : Option Nat :=
      match tok1.getLast? with
      | some c => if c = '1' then some 11 else if c = '0' then some 10 else none
      | none => none
    match v? with
    | none => none
    | some v =>
      match splitAtChar ' ' rest with
      | none => none
      | some (tok2, _) =>
        some { resp with version := v, statusCode := atoiFull tok2 }

/-- The blank-line branch of `SseClientContext::parseHeaders`: select
the framing mode from the accumulated headers — chunked when the
`transfer-encoding` value equals `"chunked"` exactly, otherwise record
a positive `content-length` if one is present. -/
def selectFraming (ctx : SseClientContext) (resp : HttpResponseModel) :
    SseClientContext :=
  let encoding := resp.getHeaderBy (str "transfer-encoding")
  if encoding = str "chunked" then
    { ctx with isChunked := true, expectChunkLength := true }
  else
    let lenStr := resp.getHeaderBy (str "content-length")
    if lenStr.isEmpty then ctx
    else { ctx with contentLength := stoullModel lenStr }

/-- The header loop of `SseClientContext::parseHeaders`.  One
iteration per CRLF-terminated line: first the status line (exactly
once), then header lines, until the blank line; there the framing mode
is selected, the decoder is constructed and the status moves to
`ExpectBody`.  `fuel` only bounds the recursion; every caller passes
`buf.length`, which the loop (consuming ≥ 2 bytes per iteration)
never exhausts. -/
def parseHeadersGo : Nat → SseClientContext → HttpResponseModel → Bool →
    List Char → Option (SseClientContext × HttpResponseModel × List Char)
  | 0, ctx, resp, _, buf => some (ctx, resp, buf)
  | fuel + 1, ctx, resp, slp, buf =>
    match splitAtCRLF buf with
    | none => some (ctx, resp, buf)
    | some (line, rest) =>
      if !slp then
        match processResponseLine resp line with
        | none => none
        | some resp' => parseHeadersGo fuel ctx resp' true rest
      else if line.isEmpty then
        let ctx1 := selectFraming ctx resp
        some ({ ctx1 with status := Status.ExpectBody,
                          parser := some SseEventParser.init,
                          response := some resp }, resp, rest)
      else
        let resp' :=
          match splitAtChar ':' line with
          | none => resp
          | some (f, v0) =>
            resp.addHeader (f.map lowerC) (v0.dropWhile (fun c => c == ' '))
        parseHeadersGo fuel ctx resp' slp rest

/-- `SseClientContext::parseHeaders`.  The status line is treated as
already parsed when the stored status code differs from `kUnknown`.
`none` is the hard parse failure. -/
def SseClientContext.parseHeaders (ctx : SseClientContext) (buf : List Char) :
    Option (SseClientContext × List Char) :=
  let resp := ctx.response.getD HttpResponseModel.init
  let slp : Bool := resp.statusCode != 0
  match parseHeadersGo buf.length ctx resp slp buf with
  | none => none
  | some (ctx', resp', rest) => some ({ ctx' with response := some resp' }, rest)

/-- Result of the chunked-mode loop: decoder state, the
`expectChunkLength_` / `currentChunkLength_` sub-state, the bytes left
in the buffer, the dispatched events and whether the terminal chunk
closed the context. -/
structure ChunkedResult where
  ps : SseEventParser
  expectLen : Bool
  chunkLen : Nat
  leftover : List Char
  events : List SseEvent
  closed : Bool
deriving DecidableEq

/-- The chunked-transfer loop of `SseClientContext::parseBody`.
While bytes remain: read a CRLF-terminated chunk-size line
(`strtol(_, _, 16)` cast to `size_t`); zero size is the terminal
chunk — consume up to and including the next CRLF if one is buffered
and report closed; otherwise feed `min(size, available)` bytes of
chunk payload through a *temporary* buffer to the decoder (whatever
incomplete line the decoder leaves in that temporary buffer is
discarded with it), and after a full chunk consume the trailing CRLF
once 2 bytes are available.  `fuel` only bounds the recursion; every
caller passes `buf.length + 1`, which the loop (consuming at least one
byte before each recursive step that keeps bytes) never exhausts. -/
def chunkedGo : Nat → SseEventParser → Bool → Nat → List Char → ChunkedResult
  | 0, ps, el, cl, buf => ⟨ps, el, cl, buf, [], false⟩
  | fuel + 1, ps, el, cl, buf =>
    if buf.isEmpty then ⟨ps, el, cl, buf, [], false⟩
    else if el then
      match splitAtCRLF buf with
      | none => ⟨ps, el, cl, buf, [], false⟩
      | some (line, rest) =>
        let len := toSizeT (strtol16 line)
        if len = 0 then
          -- terminal chunk: the source leaves `expectChunkLength_` as it
          -- stands (true) and only sets the status to Closed
          match splitAtCRLF rest with
          | some (_, rest2) => ⟨ps, el, len, rest2, [], true⟩
          | none => ⟨ps, el, len, rest, [], true⟩
        else chunkedGo fuel ps false len rest
    else
      let toRead := min cl buf.length
      let fed := ps.parse (buf.take toRead)
      let ps' := if toRead > 0 then fed.st else ps
      let evs := if toRead > 0 then fed.events else []
      let buf' := buf.drop toRead
      let cl' := cl - toRead
      if cl' = 0 then
        if 2 ≤ buf'.length then
          let q := chunkedGo fuel ps' true 0 (buf'.drop 2)
          ⟨q.ps, q.expectLen, q.chunkLen, q.leftover, evs ++ q.events, q.closed⟩
        else ⟨ps', false, cl', buf', evs, false⟩
      else
        let q := chunkedGo fuel ps' false cl' buf'
        ⟨q.ps, q.expectLen, q.chunkLen, q.leftover, evs ++ q.events, q.closed⟩

/-- Result of `SseClientContext::parse` (and of `parseBody`): updated
context, bytes left in the connection buffer, events the decoder
dispatched during the call, and the boolean the call returns. -/
structure ParseResult where
  ctx : SseClientContext
  leftover : List Char
  events : List SseEvent
  ok : Bool
deriving DecidableEq

/-- `SseClientContext::parseBody`: chunked mode runs the chunked loop;
fixed-length mode (`contentLength_ > 0`) feeds the *whole* buffer to
the decoder while adding only `min(remaining, available)` to
`bytesRead_`, closing once `bytesRead_ ≥ contentLength_`; otherwise
(no content length) all bytes are forwarded indefinitely. -/
def SseClientContext.parseBody (ctx : SseClientContext) (buf : List Char) :
    ParseResult :=
  match ctx.parser with
  | none => ⟨ctx, buf, [], false⟩
  | some ps =>
    if ctx.isChunked then
      let r := chunkedGo (buf.length + 1) ps ctx.expectChunkLength
                 ctx.currentChunkLength buf
      ⟨{ ctx with parser := some r.ps, expectChunkLength := r.expectLen,
                  currentChunkLength := r.chunkLen,
                  status := if r.closed then Status.Closed else ctx.status },
        r.leftover, r.events, true⟩
    else if ctx.contentLength > 0 then
      let remaining := ctx.contentLength - ctx.bytesRead
      let toRead := min remaining buf.length
      let fed := ps.parse buf
      let ps' := if toRead > 0 then fed.st else ps
      let left := if toRead > 0 then fed.leftover else buf
      let evs := if toRead > 0 then fed.events else []
      let br := ctx.bytesRead + toRead
      ⟨{ ctx with parser := some ps', bytesRead := br,
                  status := if br ≥ ctx.contentLength then Status.Closed
                            else ctx.status },
        left, evs, true⟩
    else
      let fed := ps.parse buf
      ⟨{ ctx with parser := some fed.st }, fed.leftover, fed.events, true⟩

/-- `SseClientContext::parse`: a no-op failure when already closed;
otherwise the header phase (when still expected), then the body phase
on whatever the header phase left buffered.  (On a header hard failure
the source keeps the partially updated response object; the model
returns the context unchanged — no claim observes the difference.) -/
def SseClientContext.parse (ctx : SseClientContext) (buf : List Char) :
    ParseResult :=
  if ctx.status = Status.Closed then ⟨ctx, buf, [], false⟩
  else
    let h : Option (SseClientContext × List Char) :=
      if ctx.status = Status.ExpectHeaders then ctx.parseHeaders buf
      else some (ctx, buf)
    match h with
    | none => ⟨ctx, buf, [], false⟩
    | some (ctx1, buf1) =>
      if ctx1.status = Status.ExpectBody then ctx1.parseBody buf1
      else ⟨ctx1, buf1, [], true⟩

/-- `SseClientContext::onClose`: the one-shot guard; the returned
boolean records whether the closed callback fired during this call. -/
def SseClientContext.onClose (ctx : SseClientContext) :
    SseClientContext × Bool :=
  if ctx.closedCallbackInvoked then (ctx, false)
  else
    ({ ctx with closedCallbackInvoked := true, status := Status.Closed }, true)

/-- `n` successive `onClose` invocations; the second component counts
how many of them fired the closed callback. -/
def iterOnClose (ctx : SseClientContext) : Nat → SseClientContext × Nat
  | 0 => (ctx, 0)
  | n + 1 =>
    let p := ctx.onClose
    let q := iterOnClose p.1 n
    (q.1, (if p.2 then 1 else 0) + q.2)

/-! ## SseWriter's event formatter (`SseWriter.cc`) -/

/-- One decimal digit character. -/
def digitChar : Nat → Char
  | 0 => '0'
  | 1 => '1'
  | 2 => '2'
  | 3 => '3'
  | 4 => '4'
  | 5 => '5'
  | 6 => '6'
  | 7 => '7'
  | 8 => '8'
  | 9 => '9'
  | _ => '*'

/-- Decimal rendering of a `Nat` (the `operator<<` of a non-negative
`int` into the format stream).  `fuel` only bounds the recursion;
`natToDec` passes `n + 1`, which always covers the digit count. -/
def natToDecGo : Nat → Nat → List Char
  | 0, _ => []
  | fuel + 1, n =>
    if n < 10 then [digitChar n]
    else natToDecGo fuel (n / 10) ++ [digitChar (n % 10)]

/-- Decimal rendering of a `Nat`. -/
def natToDec (n : Nat) : List Char := natToDecGo (n + 1) n

/-- `std::getline` over an `istringstream` of `s`, collected into a
list: segments split on `'\n'`, where a trailing `'\n'` produces no
empty final segment (at end-of-stream `getline` fails when nothing was
read).  `acc` holds the current segment in reverse. -/
def getlinesGo (acc : List Char) : List Char → List (List Char)
  | [] => if acc.isEmpty then [] else [acc.reverse]
  | c :: cs =>
    if c = '\n' then acc.reverse :: getlinesGo [] cs
    else getlinesGo (c :: acc) cs

/-- The `getline` loop of `SseWriter::formatEvent` on the data
payload. -/
def getlines (s : List Char) : List (List Char) := getlinesGo [] s

/-- The lines emitted by `SseWriter::formatEvent`, in order:
`event:` when the type is non-empty, `id:` when the id is non-empty,
`retry:` when retry is positive, one `data:` line per `getline`
segment of the data (a single empty `data:` line when the data is
empty), and the terminating blank line. -/
def formatLines (e : SseEvent) : List (List Char) :=
  (if e.event.isEmpty then [] else [str "event:" ++ e.event])
  ++ (if e.id.isEmpty then [] else [str "id:" ++ e.id])
  ++ (if e.retry > 0 then [str "retry:" ++ natToDec e.retry.toNat] else [])
  ++ (if e.data.isEmpty then [str "data:"]
      else (getlines e.data).map (fun s => str "data:" ++ s))
  ++ [[]]

/-- Concatenate lines, terminating each with `'\n'`. -/
def joinLines : List (List Char) → List Char
  | [] => []
  | l :: ls => l ++ '\n' :: joinLines ls

/-- `SseWriter::formatEvent`: each emitted line followed by `"\n"`
(the final element, the empty line, yields the terminating blank
line). -/
def SseWriter.formatEvent (e : SseEvent) : List Char :=
  joinLines (formatLines e)

/-! ## Lemmas about the line scanner -/

theorem parseGo_nil (st : SseEventParser) (acc : List Char) :
    st.parseGo acc [] = ⟨st, acc.reverse, []⟩ := rfl

theorem parseGo_cons_nl (st : SseEventParser) (acc cs : List Char) :
    st.parseGo acc ('\n' :: cs) =
      ⟨((st.processLine (stripTrailingCR acc.reverse)).1.parseGo [] cs).st,
       ((st.processLine (stripTrailingCR acc.reverse)).1.parseGo [] cs).leftover,
       (st.processLine (stripTrailingCR acc.reverse)).2.toList ++
         ((st.processLine (stripTrailingCR acc.reverse)).1.parseGo [] cs).events⟩ := by
  simp [SseEventParser.parseGo]

theorem parseGo_cons_ne (st : SseEventParser) (acc cs : List Char) {c : Char}
    (hc : c ≠ '\n') : st.parseGo acc (c :: cs) = st.parseGo (c :: acc) cs := by
  simp [SseEventParser.parseGo, hc]

/-- Scanning a newline-free prefix only accumulates it. -/
theorem parseGo_no_newline_append (st : SseEventParser) {l : List Char}
    (h : '\n' ∉ l) (acc rest : List Char) :
    st.parseGo acc (l ++ rest) = st.parseGo (l.reverse ++ acc) rest := by
  induction l generalizing acc with
  | nil => simp
  | cons c cs ih =>
    have hc : c ≠ '\n' := fun hh => h (hh ▸ List.mem_cons_self c cs)
    have h' : '\n' ∉ cs := fun hh => h (List.mem_cons_of_mem _ hh)
    rw [List.cons_append, parseGo_cons_ne _ _ _ hc, ih h']
    simp

/-- A complete first line is processed and the scan continues after
its terminator. -/
theorem parse_cons_line (st : SseEventParser) {l : List Char}
    (rest : List Char) (h : '\n' ∉ l) :
    st.parse (l ++ '\n' :: rest) =
      ⟨((st.processLine (stripTrailingCR l)).1.parse rest).st,
       ((st.processLine (stripTrailingCR l)).1.parse rest).leftover,
       (st.processLine (stripTrailingCR l)).2.toList ++
         ((st.processLine (stripTrailingCR l)).1.parse rest).events⟩ := by
  unfold SseEventParser.parse
  rw [parseGo_no_newline_append st h, parseGo_cons_nl]
  simp

/-- The buffered leftover never contains a line terminator. -/
theorem parseGo_leftover_no_newline (st : SseEventParser) (acc buf : List Char)
    (h : '\n' ∉ acc) : '\n' ∉ (st.parseGo acc buf).leftover := by
  induction buf generalizing st acc with
  | nil => simpa [parseGo_nil] using h
  | cons c cs ih =>
    by_cases hc : c = '\n'
    · subst hc
      rw [parseGo_cons_nl]
      exact ih _ _ (by simp)
    · rw [parseGo_cons_ne _ _ _ hc]
      refine ih _ _ (fun hm => ?_)
      rcases List.mem_cons.mp hm with h1 | h2
      · exact hc h1.symm
      · exact h h2

/-- Feeding a buffer in two calls (the retained leftover prepended to
the second part) is the same as feeding it whole. -/
theorem parseGo_split (b1 : List Char) (st : SseEventParser)
    (acc b2 : List Char) (h : '\n' ∉ acc) :
    (⟨((st.parseGo acc b1).st.parse ((st.parseGo acc b1).leftover ++ b2)).st,
      ((st.parseGo acc b1).st.parse ((st.parseGo acc b1).leftover ++ b2)).leftover,
      (st.parseGo acc b1).events ++
        ((st.parseGo acc b1).st.parse ((st.parseGo acc b1).leftover ++ b2)).events⟩
      : FeedResult) = st.parseGo acc (b1 ++ b2) := by
  induction b1 generalizing st acc with
  | nil =>
    rw [parseGo_nil]
    show (⟨(st.parse (acc.reverse ++ b2)).st, (st.parse (acc.reverse ++ b2)).leftover,
          [] ++ (st.parse (acc.reverse ++ b2)).events⟩ : FeedResult) = _
    unfold SseEventParser.parse
    rw [parseGo_no_newline_append st (by simpa using h)]
    simp
  | cons c cs ih =>
    by_cases hc : c = '\n'
    · subst hc
      rw [List.cons_append, parseGo_cons_nl, parseGo_cons_nl]
      have := ih (st.processLine (stripTrailingCR acc.reverse)).1 [] (by simp)
      have h1 := congrArg FeedResult.st this
      have h2 := congrArg FeedResult.leftover this
      have h3 := congrArg FeedResult.events this
      simp only [SseEventParser.parse] at h1 h2 h3 ⊢
      simp only [h1, h2, ← h3]
      simp [List.append_assoc]
    · rw [List.cons_append, parseGo_cons_ne _ _ _ hc, parseGo_cons_ne _ _ _ hc]
      refine ih st (c :: acc) (fun hm => ?_)
      rcases List.mem_cons.mp hm with h1 | h2
      · exact hc h1.symm
      · exact h h2

/-- C5.  For every input byte sequence and every split of it into two
successive feed calls, `SseEventParser::parse` produces the same final
decoder state, the same retained buffer and the same dispatched-event
sequence as feeding the whole sequence in one call; moreover the
retained leftover never contains a line terminator, so an incomplete
trailing line is kept across calls and never processed partially. -/
theorem parser_split_feed_equiv :
    (∀ (st : SseEventParser) (b1 b2 : List Char),
      ((st.parse b1).st.parse ((st.parse b1).leftover ++ b2)).st
          = (st.parse (b1 ++ b2)).st ∧
      ((st.parse b1).st.parse ((st.parse b1).leftover ++ b2)).leftover
          = (st.parse (b1 ++ b2)).leftover ∧
      (st.parse b1).events ++
          ((st.parse b1).st.parse ((st.parse b1).leftover ++ b2)).events
          = (st.parse (b1 ++ b2)).events) ∧
    (∀ (st : SseEventParser) (b : List Char), '\n' ∉ (st.parse b).leftover) := by
  constructor
  · intro st b1 b2
    have h := parseGo_split b1 st [] b2 (by simp)
    have h1 := congrArg FeedResult.st h
    have h2 := congrArg FeedResult.leftover h
    have h3 := congrArg FeedResult.events h
    exact ⟨h1, h2, h3⟩
  · intro st b
    exact parseGo_leftover_no_newline st [] b (by simp)

/-! ## C8: idempotent close notification -/

theorem iterOnClose_already_invoked (ctx : SseClientContext)
    (h : ctx.closedCallbackInvoked = true) (n : Nat) :
    iterOnClose ctx n = (ctx, 0) := by
  induction n with
  | zero => rfl
  | succ n ih => simp [iterOnClose, SseClientContext.onClose, h, ih]

/-- C8.  Starting from a context whose closed callback has not yet
fired, any positive number of successive `onClose` invocations fires
the closed callback exactly once, and leaves the context `Closed`
(with the one-shot guard set) after every such sequence. -/
theorem onClose_idempotent (ctx : SseClientContext)
    (h : ctx.closedCallbackInvoked = false) (n : Nat) (hn : 1 ≤ n) :
    (iterOnClose ctx n).2 = 1 ∧
    (iterOnClose ctx n).1.status = Status.Closed ∧
    (iterOnClose ctx n).1.closedCallbackInvoked = true := by
  obtain ⟨m, rfl⟩ : ∃ m, n = m + 1 := ⟨n - 1, by omega⟩
  simp [iterOnClose, SseClientContext.onClose, h,
        iterOnClose_already_invoked]

/-- Witness for C8: two racing close notifications (timeout, then
stream end) on a fresh context fire the closed callback exactly
once and leave the context closed. -/
theorem onClose_idempotent_witness :
    (iterOnClose SseClientContext.init 2).2 = 1 ∧
    (iterOnClose SseClientContext.init 2).1.status = Status.Closed ∧
    (iterOnClose SseClientContext.init 2).1.closedCallbackInvoked = true :=
  onClose_idempotent SseClientContext.init rfl 2 (by omega)

/-! ## C1: chunked framing drops a partial line at a chunk boundary -/

/-- C1.  The claimed equivalence between chunked-mode parsing and
feeding the concatenated unwrapped chunk payloads directly to the
decoder fails: the chunked body carrying the payloads `"data:hi"` and
`"\n\n"` (wire form `7\r\ndata:hi\r\n2\r\n\n\n\r\n0\r\n\r\n`)
dispatches no event, while the concatenated payload `"data:hi\n\n"`
fed directly dispatches one — the partial line `"data:hi"` that ends
at the chunk boundary is discarded with the temporary buffer
`parseBody` feeds to the decoder. -/
theorem chunked_partial_line_lost :
    (SseClientContext.init.parse
      (str "HTTP/1.1 200 OK\r\nTransfer-Encoding:chunked\r\n\r\n7\r\ndata:hi\r\n2\r\n\n\n\r\n0\r\n\r\n")).events
      = [] ∧
    (SseClientContext.init.parse
      (str "HTTP/1.1 200 OK\r\nTransfer-Encoding:chunked\r\n\r\n7\r\ndata:hi\r\n2\r\n\n\n\r\n0\r\n\r\n")).ctx.isChunked
      = true ∧
    (SseEventParser.init.parse (str "data:hi\n\n")).events
      = [⟨str "message", str "hi", [], 0⟩] := by decide

/-! ## C3: fixed-length mode forwards bytes beyond Content-Length -/

/-- C3.  In fixed-length mode the claim that exactly the first `n`
post-header body bytes reach the decoder fails: with
`Content-Length: 1` and the single delivery `"a\ndata:hi\n\n"`, the
source feeds the *whole* buffer to the decoder (it computes
`toRead = 1` but then parses `buf` itself), so an event built
entirely from bytes after the first one is dispatched; only the byte
count (`bytesRead_ = 1`) respects `n`, and the context closes. -/
theorem fixed_length_overread :
    (SseClientContext.init.parse
      (str "HTTP/1.1 200 OK\r\nContent-Length:1\r\n\r\na\ndata:hi\n\n")).ctx.contentLength = 1 ∧
    (SseClientContext.init.parse
      (str "HTTP/1.1 200 OK\r\nContent-Length:1\r\n\r\na\ndata:hi\n\n")).events
      = [⟨str "message", str "hi", [], 0⟩] ∧
    (SseClientContext.init.parse
      (str "HTTP/1.1 200 OK\r\nContent-Length:1\r\n\r\na\ndata:hi\n\n")).ctx.bytesRead = 1 ∧
    (SseClientContext.init.parse
      (str "HTTP/1.1 200 OK\r\nContent-Length:1\r\n\r\na\ndata:hi\n\n")).ctx.status
      = Status.Closed := by decide

/-! ## C2: format/decode round trip -/

/-- Counterexample to C2 as stated.  The event with empty type, empty
id, retry 0 and the non-empty data `"\n"` formats to `"data:\n\n"`,
and feeding those bytes to a fresh decoder dispatches *no* event at
all (the decoder accumulates an empty data value, which is not
dispatchable) — not one event with the original fields. -/
theorem format_decode_empty_line_data :
    (⟨[], str "\n", [], 0⟩ : SseEvent).data ≠ [] ∧
    SseWriter.formatEvent ⟨[], str "\n", [], 0⟩ = str "data:\n\n" ∧
    (SseEventParser.init.parse
      (SseWriter.formatEvent ⟨[], str "\n", [], 0⟩)).events = [] := by decide

/-! ## Field-level lemmas about `processLine` -/

theorem stripTrailingCR_eq {l : List Char} (h : l.getLast? ≠ some '\r') :
    stripTrailingCR l = l := by
  unfold stripTrailingCR
  simp [h]

theorem processLine_unknown (st : SseEventParser) {line f v : List Char}
    (hie : line.isEmpty = false) (hcm : line.head? ≠ some ':')
    (hfv : fieldValue line = (f, v))
    (h1 : f ≠ str "event") (h2 : f ≠ str "data") (h3 : f ≠ str "id")
    (h4 : f ≠ str "retry") :
    st.processLine line = (st, none) := by
  simp only [SseEventParser.processLine, hie, hfv]
  simp [h1, h2, h3, h4, hcm]

theorem processLine_id_bad (st : SseEventParser) {line v : List Char}
    (hie : line.isEmpty = false) (hcm : line.head? ≠ some ':')
    (hfv : fieldValue line = (str "id", v))
    (hid : v.contains '\x00' = true) :
    st.processLine line = (st, none) := by
  have hmem : '\x00' ∈ v := by simpa using hid
  simp only [SseEventParser.processLine, hie, hfv]
  simp [str, hcm, hmem]

theorem processLine_retry_bad (st : SseEventParser) {line v : List Char}
    (hie : line.isEmpty = false) (hcm : line.head? ≠ some ':')
    (hfv : fieldValue line = (str "retry", v))
    (hr : (!v.isEmpty && v.all Char.isDigit) = false) :
    st.processLine line = (st, none) := by
  simp only [SseEventParser.processLine, hie, hfv]
  simp [str, hcm, hr]

/-! ## C7: invalid or unknown field lines are ignored without aborting -/

/-- C7.  A field line whose name is unknown, or an `id` line whose
value contains a NUL byte, or a `retry` line whose value is empty or
not all ASCII digits, leaves the decoder state (pending event *and*
sticky last-event-id) completely unchanged and dispatches nothing; and
inside a feed, such a line simply disappears: parsing
`line ++ '\n' :: rest` is identical to parsing `rest`, so the
remaining lines of the event are still processed. -/
theorem invalid_fields_ignored (st : SseEventParser) (line rest f v : List Char)
    (hne : line ≠ [])
    (hcm : line.head? ≠ some ':')
    (hfv : fieldValue line = (f, v))
    (hnl : '\n' ∉ line)
    (hcr : line.getLast? ≠ some '\r')
    (hbad : f ∉ [str "event", str "data", str "id", str "retry"] ∨
            (f = str "id" ∧ v.contains '\x00' = true) ∨
            (f = str "retry" ∧ (!v.isEmpty && v.all Char.isDigit) = false)) :
    st.processLine line = (st, none) ∧
    st.parse (line ++ '\n' :: rest) = st.parse rest := by
  have hie : line.isEmpty = false := by
    cases line
    · exact absurd rfl hne
    · rfl
  have hmain : st.processLine line = (st, none) := by
    rcases hbad with hbad | ⟨rfl, hid⟩ | ⟨rfl, hretry⟩
    · simp only [List.mem_cons, List.mem_singleton, not_or] at hbad
      obtain ⟨he1, he2, he3, he4⟩ : f ≠ str "event" ∧ f ≠ str "data" ∧
          f ≠ str "id" ∧ f ≠ str "retry" := by tauto
      exact processLine_unknown st hie hcm hfv he1 he2 he3 he4
    · exact processLine_id_bad st hie hcm hfv hid
    · exact processLine_retry_bad st hie hcm hfv hretry
  refine ⟨hmain, ?_⟩
  rw [parse_cons_line st rest hnl, stripTrailingCR_eq hcr, hmain]
  simp

/-- Witness for C7: the unknown field line `"foo:bar"` changes nothing
and a following `data`/blank pair still dispatches. -/
theorem invalid_fields_ignored_witness :
    SseEventParser.init.processLine (str "foo:bar") = (SseEventParser.init, none) ∧
    SseEventParser.init.parse (str "foo:bar" ++ '\n' :: str "data:x\n\n") =
      SseEventParser.init.parse (str "data:x\n\n") :=
  invalid_fields_ignored SseEventParser.init (str "foo:bar") (str "data:x\n\n")
    (str "foo") (str "bar") (by decide) (by decide) (by decide) (by decide)
    (by decide) (Or.inl (by decide))

/-! ## Lemmas for well-formed field lines (used for the round trip) -/

theorem splitAtChar_field_line {c : Char} {pre : List Char} (h : c ∉ pre)
    (suf : List Char) : splitAtChar c (pre ++ c :: suf) = some (pre, suf) := by
  induction pre with
  | nil => simp [splitAtChar]
  | cons x xs ih =>
    have hx : x ≠ c := fun hh => h (hh ▸ List.mem_cons_self x xs)
    have h' : c ∉ xs := fun hh => h (List.mem_cons_of_mem _ hh)
    simp [splitAtChar, hx, ih h']

theorem fieldValue_field_line {name v : List Char} (hn : ':' ∉ name)
    (hv : v.head? ≠ some ' ') :
    fieldValue (name ++ ':' :: v) = (name, v) := by
  unfold fieldValue
  rw [splitAtChar_field_line hn]
  cases v with
  | nil => rfl
  | cons c cs =>
    have hc : c ≠ ' ' := fun hh => hv (by simp [hh])
    simp only []
    split
    · next w heq =>
      rw [List.cons.injEq] at heq
      exact absurd heq.1 hc
    · rfl

theorem head?_prefix_ne (name v : List Char) (c : Char) (hn : name.head? = some c)
    (hc : c ≠ ':') : (name ++ ':' :: v).head? ≠ some ':' := by
  cases name with
  | nil => simp at hn
  | cons x xs =>
    obtain rfl : x = c := by simpa using hn
    simpa using hc

theorem processLine_event_set (st : SseEventParser) {v : List Char}
    (hv : v.head? ≠ some ' ') :
    st.processLine (str "event" ++ ':' :: v) =
      ({ st with currentEvent := { st.currentEvent with event := v } }, none) := by
  have hfv : fieldValue (str "event" ++ ':' :: v) = (str "event", v) :=
    fieldValue_field_line (by decide) hv
  have hie : (str "event" ++ ':' :: v).isEmpty = false := rfl
  have hcm : (str "event" ++ ':' :: v).head? ≠ some ':' :=
    head?_prefix_ne _ v 'e' rfl (by decide)
  simp only [SseEventParser.processLine, hie, hfv]
  simp [str, hcm]

theorem processLine_data_set (st : SseEventParser) {v : List Char}
    (hv : v.head? ≠ some ' ') :
    st.processLine (str "data" ++ ':' :: v) =
      ({ st with currentEvent := { st.currentEvent with data :=
          if st.currentEvent.data.isEmpty then v
          else st.currentEvent.data ++ '\n' :: v } }, none) := by
  have hfv : fieldValue (str "data" ++ ':' :: v) = (str "data", v) :=
    fieldValue_field_line (by decide) hv
  have hie : (str "data" ++ ':' :: v).isEmpty = false := rfl
  have hcm : (str "data" ++ ':' :: v).head? ≠ some ':' :=
    head?_prefix_ne _ v 'd' rfl (by decide)
  simp only [SseEventParser.processLine, hie, hfv]
  simp [str, hcm]

theorem processLine_id_set (st : SseEventParser) {v : List Char}
    (hv : v.head? ≠ some ' ') (hnul : v.contains '\x00' = false) :
    st.processLine (str "id" ++ ':' :: v) =
      ({ st with
          currentEvent := { st.currentEvent with id := v },
          lastEventId := v }, none) := by
  have hfv : fieldValue (str "id" ++ ':' :: v) = (str "id", v) :=
    fieldValue_field_line (by decide) hv
  have hie : (str "id" ++ ':' :: v).isEmpty = false := rfl
  have hcm : (str "id" ++ ':' :: v).head? ≠ some ':' :=
    head?_prefix_ne _ v 'i' rfl (by decide)
  have hmem : '\x00' ∉ v := by simpa using hnul
  simp only [SseEventParser.processLine, hie, hfv]
  simp [str, hcm, hmem]

theorem processLine_retry_set (st : SseEventParser) {v : List Char}
    (hv : v.head? ≠ some ' ')
    (hd : (!v.isEmpty && v.all Char.isDigit) = true) :
    st.processLine (str "retry" ++ ':' :: v) =
      ({ st with currentEvent :=
          { st.currentEvent with retry := atoiDigits v } }, none) := by
  have hfv : fieldValue (str "retry" ++ ':' :: v) = (str "retry", v) :=
    fieldValue_field_line (by decide) hv
  have hie : (str "retry" ++ ':' :: v).isEmpty = false := rfl
  have hcm : (str "retry" ++ ':' :: v).head? ≠ some ':' :=
    head?_prefix_ne _ v 'r' rfl (by decide)
  simp only [SseEventParser.processLine, hie, hfv]
  simp [str, hcm, hd]

/-- Run `processLine` over a list of already-extracted lines (each
stripped of a trailing CR), collecting dispatched events — the
line-level view of a `parse` call whose input is a concatenation of
terminated lines. -/
def runLines (st : SseEventParser) :
    List (List Char) → SseEventParser × List SseEvent
  | [] => (st, [])
  | l :: ls =>
    let p := st.processLine (stripTrailingCR l)
    let q := runLines p.1 ls
    (q.1, p.2.toList ++ q.2)

theorem runLines_append (st : SseEventParser) (ls1 ls2 : List (List Char)) :
    runLines st (ls1 ++ ls2) =
      ((runLines (runLines st ls1).1 ls2).1,
       (runLines st ls1).2 ++ (runLines (runLines st ls1).1 ls2).2) := by
  induction ls1 generalizing st with
  | nil => simp [runLines]
  | cons l ls ih => simp [runLines, ih, List.append_assoc]

theorem parse_joinLines (st : SseEventParser) (ls : List (List Char))
    (h : ∀ l ∈ ls, '\n' ∉ l) :
    st.parse (joinLines ls) = ⟨(runLines st ls).1, [], (runLines st ls).2⟩ := by
  induction ls generalizing st with
  | nil => rfl
  | cons l ls ih =>
    rw [joinLines, parse_cons_line st _ (h l (List.mem_cons_self l ls))]
    rw [ih _ (fun l2 hl2 => h l2 (List.mem_cons_of_mem _ hl2))]
    simp [runLines]

/-! ## C4: status-line acceptance -/

/-- C4 (amended).  For a complete status line that does not begin with
a space, `processResponseLine` succeeds if and only if the line has a
first space whose preceding character is `'1'` or `'0'` *and* at least
one further space after it; the status-code token between the two
spaces goes through `atoi`, which never fails (so "parses as an
integer" imposes no constraint, and a two-token line with no trailing
third token is rejected). -/
theorem status_line_accept_iff (resp : HttpResponseModel) (line : List Char)
    (h : line.head? ≠ some ' ') :
    (processResponseLine resp line).isSome ↔
      ∃ tok1 rest, splitAtChar ' ' line = some (tok1, rest) ∧
        (tok1.getLast? = some '1' ∨ tok1.getLast? = some '0') ∧
        (splitAtChar ' ' rest).isSome := by
  unfold processResponseLine
  cases hsp : splitAtChar ' ' line with
  | none => simp [hsp]
  | some p =>
    obtain ⟨tok1, rest⟩ := p
    have hR : (∃ t r, (some (tok1, rest) : Option (List Char × List Char))
          = some (t, r) ∧
        ((t.getLast? = some '1' ∨ t.getLast? = some '0') ∧
          (splitAtChar ' ' r).isSome)) ↔
        ((tok1.getLast? = some '1' ∨ tok1.getLast? = some '0') ∧
          (splitAtChar ' ' rest).isSome) := by
      constructor
      · rintro ⟨t, r, heq, hrest⟩
        simp only [Option.some.injEq, Prod.mk.injEq] at heq
        obtain ⟨rfl, rfl⟩ := heq
        exact hrest
      · intro hx
        exact ⟨tok1, rest, rfl, hx⟩
    simp only [hsp]
    rw [hR]
    cases hl : tok1.getLast? with
    | none => simp
    | some c =>
      by_cases h1 : c = '1'
      · subst h1
        cases hs2 : splitAtChar ' ' rest with
        | none => simp [hs2]
        | some q => simp [hs2]
      · by_cases h0 : c = '0'
        · subst h0
          cases hs2 : splitAtChar ' ' rest with
          | none => simp [hs2]
          | some q => simp [hs2, h1]
        · simp [h1, h0]

/-- Witness for C4: `"HTTP/1.1 200 OK"` — first token ending in the
version digit and a second space present — is accepted. -/
theorem status_line_accept_iff_witness :
    (processResponseLine HttpResponseModel.init (str "HTTP/1.1 200 OK")).isSome :=
  (status_line_accept_iff HttpResponseModel.init (str "HTTP/1.1 200 OK")
      (by decide)).mpr
    ⟨str "HTTP/1.1", str "200 OK", by decide, Or.inl (by decide), by decide⟩

/-- Counterexample to C4 as stated.  The status line `"HTTP/1.1 200"`
consists of exactly two space-delimited tokens, the first ending in
the version digit `'1'` and the second parsing as an integer status
code, yet `processResponseLine` rejects it (it demands a *second*
space after the status-code token). -/
theorem status_line_two_tokens_rejected :
    splitAtChar ' ' (str "HTTP/1.1 200")
      = some (str "HTTP/1.1", str "200") ∧
    (str "HTTP/1.1").getLast? = some '1' ∧
    (str "200") ≠ [] ∧ (str "200").all Char.isDigit = true ∧
    processResponseLine HttpResponseModel.init (str "HTTP/1.1 200") = none := by
  decide

/-! ## C6: chunked-mode selection is case-sensitive -/

/-- Counterexample to C6 as stated.  A response whose
`Transfer-Encoding` value is `"Chunked"` — equal to `"chunked"` up to
ASCII case — does *not* select chunked mode: the header/body
transition completes with `isChunked_` still false (the value
comparison in `parseHeaders` is exact). -/
theorem transfer_encoding_case_sensitive :
    (str "Chunked").map lowerC = str "chunked" ∧
    ((SseClientContext.init.parse
        (str "HTTP/1.1 200 OK\r\nTransfer-Encoding:Chunked\r\n\r\n")).ctx.response.getD
        HttpResponseModel.init).getHeaderBy (str "transfer-encoding")
      = str "Chunked" ∧
    (SseClientContext.init.parse
      (str "HTTP/1.1 200 OK\r\nTransfer-Encoding:Chunked\r\n\r\n")).ctx.status
      = Status.ExpectBody ∧
    (SseClientContext.init.parse
      (str "HTTP/1.1 200 OK\r\nTransfer-Encoding:Chunked\r\n\r\n")).ctx.isChunked
      = false := by decide

/-- C6 (amended).  At the header/body transition, chunked mode is
selected if and only if the stored `transfer-encoding` value equals
the string `"chunked"` *exactly*: the header name is matched
case-insensitively (field names are lower-cased while the headers are
parsed), but the value comparison is case-sensitive, so a value such
as `"Chunked"` does not select chunked mode. -/
theorem chunked_selected_iff_exact (ctx : SseClientContext)
    (resp : HttpResponseModel) (h : ctx.isChunked = false) :
    (selectFraming ctx resp).isChunked = true ↔
      resp.getHeaderBy (str "transfer-encoding") = str "chunked" := by
  unfold selectFraming
  by_cases he : resp.getHeaderBy (str "transfer-encoding") = str "chunked"
  · simp [he]
  · simp only [if_neg he]
    split <;> simp [h, he]

/-- Witness for C6: a response storing `transfer-encoding: chunked`
(exact lower-case value) selects chunked mode. -/
theorem chunked_selected_iff_exact_witness :
    (selectFraming SseClientContext.init
      (HttpResponseModel.init.addHeader (str "transfer-encoding")
        (str "chunked"))).isChunked = true :=
  (chunked_selected_iff_exact _ _ rfl).mpr (by decide)

/-! ## C9: a zero (or unparsable) chunk size closes the stream -/

theorem splitAtCRLF_ne_nil {buf l r : List Char}
    (h : splitAtCRLF buf = some (l, r)) : buf ≠ [] := by
  intro he
  subst he
  simp [splitAtCRLF] at h

theorem chunkedGo_zero_size (fuel : Nat) (ps : SseEventParser) (cl : Nat)
    {buf line rest : List Char}
    (hsp : splitAtCRLF buf = some (line, rest))
    (hz : toSizeT (strtol16 line) = 0) :
    chunkedGo (fuel + 1) ps true cl buf =
      ⟨ps, true, 0, (match splitAtCRLF rest with
                     | some (_, r2) => r2
                     | none => rest), [], true⟩ := by
  have hne : buf.isEmpty = false := by
    have h2 := splitAtCRLF_ne_nil hsp
    cases buf
    · exact absurd rfl h2
    · rfl
  simp only [chunkedGo, hne, hsp, hz]
  cases hr : splitAtCRLF rest with
  | none => simp [hr]
  | some p =>
    obtain ⟨a, b⟩ := p
    simp [hr]

/-- C9.  In chunked mode, when the buffered chunk-size line converts
(via `strtol` base 16, which also silently yields 0 on a token such as
`"zz"` that is not hexadecimal at all) to zero, the parse call
consumes the size line, treats it as the terminal chunk — consuming an
immediately-following CRLF when one is buffered, and consuming nothing
more when no CRLF is buffered — transitions the context to `Closed`,
forwards nothing to the decoder, and reports success rather than an
error. -/
theorem zero_chunk_closes (ctx : SseClientContext) (ps : SseEventParser)
    (buf line rest : List Char)
    (hst : ctx.status = Status.ExpectBody)
    (hp : ctx.parser = some ps)
    (hch : ctx.isChunked = true)
    (hel : ctx.expectChunkLength = true)
    (hsp : splitAtCRLF buf = some (line, rest))
    (hz : toSizeT (strtol16 line) = 0) :
    (ctx.parse buf).ok = true ∧
    (ctx.parse buf).ctx.status = Status.Closed ∧
    (ctx.parse buf).events = [] ∧
    (∀ rest2, rest = '\r' :: '\n' :: rest2 → (ctx.parse buf).leftover = rest2) ∧
    (splitAtCRLF rest = none → (ctx.parse buf).leftover = rest) := by
  have hbody : ctx.parse buf = ctx.parseBody buf := by
    unfold SseClientContext.parse
    simp [hst]
  have hpb : ctx.parseBody buf =
      ⟨{ ctx with
          parser := some ps,
          expectChunkLength := true,
          currentChunkLength := 0,
          status := Status.Closed },
        (match splitAtCRLF rest with
         | some (_, r2) => r2
         | none => rest), [], true⟩ := by
    unfold SseClientContext.parseBody
    rw [hp]
    simp only [hch, if_true]
    rw [hel, chunkedGo_zero_size buf.length ps ctx.currentChunkLength hsp hz]
    rfl
  rw [hbody, hpb]
  refine ⟨rfl, rfl, rfl, ?_, ?_⟩
  · rintro rest2 rfl
    simp [splitAtCRLF]
  · intro hn
    simp [hn]

/-- A chunked-mode context awaiting a chunk-size line. -/
def zeroChunkCtx : SseClientContext :=
  { SseClientContext.init with
      status := Status.ExpectBody,
      parser := some SseEventParser.init,
      isChunked := true,
      expectChunkLength := true }

/-- Witness for C9: the non-hexadecimal size line `"zz"` followed by
the terminal CRLF closes the context, consuming the whole buffer,
with no error. -/
theorem zero_chunk_closes_witness :
    (zeroChunkCtx.parse (str "zz\r\n\r\n")).ok = true ∧
    (zeroChunkCtx.parse (str "zz\r\n\r\n")).ctx.status = Status.Closed ∧
    (zeroChunkCtx.parse (str "zz\r\n\r\n")).leftover = [] := by
  have h := zero_chunk_closes zeroChunkCtx SseEventParser.init
    (str "zz\r\n\r\n") (str "zz") (str "\r\n")
    rfl rfl rfl rfl (by decide) (by decide)
  exact ⟨h.1, h.2.1, h.2.2.2.1 [] rfl⟩

/-! ## C10: Content-Length 0 behaves as unbounded mode -/

/-- C10.  A `Content-Length: 0` header (with no chunked
transfer-encoding) leaves `contentLength_` at 0, so the body phase
runs the *unbounded* branch: every parse call hands the entire
buffered input to the decoder, the dispatched events and retained
leftover are exactly the decoder's, the call succeeds, and the status
stays `ExpectBody` — the context never closes by byte counting. -/
theorem content_length_zero_unbounded :
    (∀ (ctx : SseClientContext) (resp : HttpResponseModel),
      ctx.isChunked = false → ctx.contentLength = 0 →
      resp.getHeaderBy (str "transfer-encoding") ≠ str "chunked" →
      resp.getHeaderBy (str "content-length") = str "0" →
      (selectFraming ctx resp).isChunked = false ∧
      (selectFraming ctx resp).contentLength = 0) ∧
    (∀ (ctx : SseClientContext) (ps : SseEventParser) (buf : List Char),
      ctx.status = Status.ExpectBody → ctx.parser = some ps →
      ctx.isChunked = false → ctx.contentLength = 0 →
      (ctx.parse buf).events = (ps.parse buf).events ∧
      (ctx.parse buf).leftover = (ps.parse buf).leftover ∧
      (ctx.parse buf).ctx.status = Status.ExpectBody ∧
      (ctx.parse buf).ok = true) := by
  constructor
  · intro ctx resp hch hcl hte hclen
    unfold selectFraming
    rw [if_neg hte, hclen]
    rw [if_neg (by decide : ¬((str "0").isEmpty = true))]
    refine ⟨hch, ?_⟩
    show stoullModel (str "0") = 0
    decide
  · intro ctx ps buf hst hp hch hcl
    have hbody : ctx.parse buf = ctx.parseBody buf := by
      unfold SseClientContext.parse
      simp [hst]
    have hpb : ctx.parseBody buf =
        ⟨{ ctx with parser := some (ps.parse buf).st },
          (ps.parse buf).leftover, (ps.parse buf).events, true⟩ := by
      unfold SseClientContext.parseBody
      rw [hp]
      simp [hch, hcl]
    rw [hbody, hpb]
    exact ⟨rfl, rfl, hst, rfl⟩

/-- An unbounded-mode context (no chunking, no content length). -/
def unboundedCtx : SseClientContext :=
  { SseClientContext.init with
      status := Status.ExpectBody,
      parser := some SseEventParser.init }

/-- Witness for C10: with content length 0 the body phase forwards a
buffer to the decoder unchanged and stays open, and the header
transition with `content-length: 0` records length 0 without chunked
mode. -/
theorem content_length_zero_unbounded_witness :
    (unboundedCtx.parse (str "data:x\n\n")).events =
      (SseEventParser.init.parse (str "data:x\n\n")).events ∧
    (unboundedCtx.parse (str "data:x\n\n")).ctx.status = Status.ExpectBody ∧
    (selectFraming SseClientContext.init
      (HttpResponseModel.init.addHeader (str "content-length")
        (str "0"))).contentLength = 0 := by
  have h2 := content_length_zero_unbounded.2 unboundedCtx
    SseEventParser.init (str "data:x\n\n") rfl rfl rfl rfl
  have h1 := content_length_zero_unbounded.1 SseClientContext.init
    (HttpResponseModel.init.addHeader (str "content-length") (str "0"))
    rfl rfl (by decide) (by decide)
  exact ⟨h2.1, h2.2.2.1, h1.2⟩


/-! ## C2: format/decode round trip (amended) -/



theorem digitChar_toNat {n : Nat} (h : n < 10) : (digitChar n).toNat = 48 + n := by
  interval_cases n <;> rfl

theorem digitChar_isDigit {n : Nat} (h : n < 10) : (digitChar n).isDigit = true := by
  interval_cases n <;> rfl

theorem atoiDigits_append_digit (l : List Char) (c : Char) :
    atoiDigits (l ++ [c]) = atoiDigits l * 10 + ((c.toNat : Int) - 48) := by
  unfold atoiDigits
  rw [List.foldl_append]
  rfl

theorem natToDecGo_spec (fuel : Nat) : ∀ n, n < fuel →
    (natToDecGo fuel n ≠ [] ∧ (∀ c ∈ natToDecGo fuel n, c.isDigit = true) ∧
     atoiDigits (natToDecGo fuel n) = (n : Int)) := by
  induction fuel with
  | zero => intro n hn; omega
  | succ fuel ih =>
    intro n hn
    by_cases h10 : n < 10
    · refine ⟨by simp [natToDecGo, h10], ?_, ?_⟩
      · intro c hc
        simp only [natToDecGo, if_pos h10, List.mem_singleton] at hc
        subst hc
        exact digitChar_isDigit h10
      · simp only [natToDecGo, if_pos h10]
        show atoiDigits [digitChar n] = (n : Int)
        unfold atoiDigits
        simp [digitChar_toNat h10]
    · have hdiv : n / 10 < fuel := by
        have h1 : n / 10 < n := Nat.div_lt_self (by omega) (by omega)
        omega
      obtain ⟨hne, hdig, hval⟩ := ih (n / 10) hdiv
      simp only [natToDecGo, if_neg h10]
      refine ⟨by simp, ?_, ?_⟩
      · intro c hc
        rcases List.mem_append.mp hc with hc | hc
        · exact hdig c hc
        · rw [List.mem_singleton] at hc
          subst hc
          exact digitChar_isDigit (Nat.mod_lt _ (by omega))
      · rw [atoiDigits_append_digit, hval, digitChar_toNat (Nat.mod_lt _ (by omega))]
        have := Nat.div_add_mod n 10
        push_cast
        omega

theorem natToDec_spec (n : Nat) :
    natToDec n ≠ [] ∧ (∀ c ∈ natToDec n, c.isDigit = true) ∧
    atoiDigits (natToDec n) = (n : Int) :=
  natToDecGo_spec (n + 1) n (by omega)

theorem isDigit_ne_special {c : Char} (h : c.isDigit = true) :
    c ≠ '\n' ∧ c ≠ '\r' ∧ c ≠ ' ' ∧ c ≠ ':' := by
  refine ⟨?_, ?_, ?_, ?_⟩ <;> rintro rfl <;> exact absurd h (by decide)



theorem splitAtChar_eq {c : Char} {s : List Char} : ∀ {l r : List Char},
    splitAtChar c s = some (l, r) → s = l ++ c :: r ∧ c ∉ l := by
  induction s with
  | nil =>
    intro l r h
    simp [splitAtChar] at h
  | cons x xs ih =>
    intro l r h
    by_cases hx : x = c
    · subst hx
      simp only [splitAtChar, if_pos rfl, Option.some.injEq, Prod.mk.injEq] at h
      obtain ⟨rfl, rfl⟩ := h
      exact ⟨rfl, by simp⟩
    · simp only [splitAtChar, if_neg hx] at h
      cases hs : splitAtChar c xs with
      | none =>
        rw [hs] at h
        simp at h
      | some p =>
        obtain ⟨l2, r2⟩ := p
        rw [hs] at h
        simp only [Option.map_some', Option.some.injEq, Prod.mk.injEq] at h
        obtain ⟨rfl, rfl⟩ := h
        obtain ⟨heq, hmem⟩ := ih hs
        constructor
        · rw [heq]
          simp
        · intro hm
          rcases List.mem_cons.mp hm with h1 | h2
          · exact hx h1.symm
          · exact hmem h2

theorem getlinesGo_split (s : List Char) : ∀ acc : List Char,
    getlinesGo acc s =
      (match splitAtChar '\n' s with
       | none => if (acc.reverse ++ s).isEmpty then [] else [acc.reverse ++ s]
       | some (l, r) => (acc.reverse ++ l) :: getlinesGo [] r) := by
  induction s with
  | nil =>
    intro acc
    simp [getlinesGo, splitAtChar]
  | cons c cs ih =>
    intro acc
    by_cases hc : c = '\n'
    · subst hc
      simp [getlinesGo, splitAtChar]
    · cases hs : splitAtChar '\n' cs with
      | none =>
        simp only [getlinesGo, if_neg hc, splitAtChar, hs]
        rw [ih (c :: acc)]
        simp [hs, hc]
      | some p =>
        obtain ⟨l, r⟩ := p
        simp only [getlinesGo, if_neg hc, splitAtChar, hs]
        rw [ih (c :: acc)]
        simp [hs, hc]

theorem getlines_no_newline {s : List Char} : ∀ {acc : List Char},
    '\n' ∉ acc → ∀ l ∈ getlinesGo acc s, '\n' ∉ l := by
  induction s with
  | nil =>
    intro acc hacc l hl
    simp only [getlinesGo] at hl
    split at hl
    · simp at hl
    · rw [List.mem_singleton] at hl
      subst hl
      simpa using hacc
  | cons c cs ih =>
    intro acc hacc l hl
    by_cases hc : c = '\n'
    · subst hc
      simp only [getlinesGo, if_pos rfl] at hl
      rcases List.mem_cons.mp hl with h1 | h2
      · subst h1
        simpa using hacc
      · exact ih (by simp) l h2
    · simp only [getlinesGo, if_neg hc] at hl
      refine ih ?_ l hl
      intro hm
      rcases List.mem_cons.mp hm with h1 | h2
      · exact hc h1.symm
      · exact hacc h2

/-- The join the decoder performs on successive `data` values. -/
def appendSegs (d : List Char) (segs : List (List Char)) : List Char :=
  segs.foldl (fun d s => if d.isEmpty then s else d ++ '\n' :: s) d

theorem getLast?_cons_ne_nil {a : Char} {l : List Char} (h : l ≠ []) :
    (a :: l).getLast? = l.getLast? := by
  cases l with
  | nil => exact absurd rfl h
  | cons b bs => exact List.getLast?_cons_cons

theorem appendSegs_getlines_aux (n : Nat) : ∀ (r : List Char), r.length ≤ n →
    r.getLast? ≠ some '\n' → ∀ d : List Char, d ≠ [] →
    appendSegs d (getlines r) = if r.isEmpty then d else d ++ '\n' :: r := by
  induction n with
  | zero =>
    intro r hr hlast d hd
    have : r = [] := by
      cases r
      · rfl
      · simp at hr
    subst this
    simp [appendSegs, getlines, getlinesGo]
  | succ n ih =>
    intro r hr hlast d hd
    cases hs : splitAtChar '\n' r with
    | none =>
      unfold getlines
      rw [getlinesGo_split r [], hs]
      cases hre : r.isEmpty
      · have hrne : r ≠ [] := by
          cases r
          · simp at hre
          · simp
        simp only [List.reverse_nil, List.nil_append, hre]
        rw [if_neg (by simpa using hrne)]
        unfold appendSegs
        simp only [List.foldl_cons, List.foldl_nil]
        rw [if_neg (by simpa using hd)]
        simp
      · have : r = [] := by
          cases r
          · rfl
          · simp at hre
        subst this
        simp [appendSegs]
    | some p =>
      obtain ⟨l, r2⟩ := p
      obtain ⟨heq, hmem⟩ := splitAtChar_eq hs
      have hr2ne : r2 ≠ [] := by
        intro h2
        subst h2
        rw [heq] at hlast
        rw [List.getLast?_append] at hlast
        simp at hlast
      have hr2last : r2.getLast? ≠ some '\n' := by
        rw [heq, List.getLast?_append, getLast?_cons_ne_nil hr2ne] at hlast
        intro h2
        rw [h2] at hlast
        simp at hlast
      have hr2len : r2.length ≤ n := by
        subst heq
        simp at hr
        omega
      unfold getlines
      rw [getlinesGo_split r [], hs]
      simp only [List.reverse_nil, List.nil_append]
      show appendSegs d (l :: getlinesGo [] r2) = _
      have step : appendSegs d (l :: getlinesGo [] r2) =
          appendSegs (d ++ '\n' :: l) (getlinesGo [] r2) := by
        unfold appendSegs
        simp only [List.foldl_cons]
        rw [if_neg (by simpa using hd)]
      rw [step]
      have := ih r2 hr2len hr2last (d ++ '\n' :: l) (by simp)
      unfold getlines at this
      rw [this]
      rw [if_neg (by simpa using hr2ne)]
      rw [heq]
      rw [if_neg ?hne]
      case hne =>
        subst heq
        simp
      simp

theorem appendSegs_getlines {data : List Char} (hne : data ≠ [])
    (hhd : data.head? ≠ some '\n') (hlast : data.getLast? ≠ some '\n') :
    appendSegs [] (getlines data) = data := by
  cases hs : splitAtChar '\n' data with
  | none =>
    unfold getlines
    rw [getlinesGo_split data [], hs]
    simp only [List.reverse_nil, List.nil_append]
    rw [if_neg (by simpa using hne)]
    unfold appendSegs
    simp
  | some p =>
    obtain ⟨l, r⟩ := p
    obtain ⟨heq, hmem⟩ := splitAtChar_eq hs
    have hlne : l ≠ [] := by
      intro h2
      subst h2
      rw [heq] at hhd
      simp at hhd
    have hrne : r ≠ [] := by
      intro h2
      subst h2
      rw [heq, List.getLast?_append] at hlast
      simp at hlast
    have hrlast : r.getLast? ≠ some '\n' := by
      rw [heq, List.getLast?_append, getLast?_cons_ne_nil hrne] at hlast
      intro h2
      rw [h2] at hlast
      simp at hlast
    unfold getlines
    rw [getlinesGo_split data [], hs]
    simp only [List.reverse_nil, List.nil_append]
    show appendSegs [] (l :: getlinesGo [] r) = data
    have step : appendSegs [] (l :: getlinesGo [] r) =
        appendSegs l (getlinesGo [] r) := by
      unfold appendSegs
      simp
    rw [step]
    have haux := appendSegs_getlines_aux r.length r le_rfl hrlast l hlne
    unfold getlines at haux
    rw [haux, if_neg (by simpa using hrne), heq]

theorem getLast?_field_line (name : List Char) {s : List Char}
    (h : s.getLast? ≠ some '\r') :
    (name ++ ':' :: s).getLast? ≠ some '\r' := by
  cases s with
  | nil =>
    rw [List.getLast?_append]
    simp
  | cons a as =>
    rw [List.getLast?_append, getLast?_cons_ne_nil (by simp)]
    cases hg : (a :: as).getLast? with
    | none => simp at hg
    | some c =>
      have hcne : c ≠ '\r' := fun h2 => h (by rw [hg, h2])
      simp [hcne]

theorem not_mem_field_line (c : Char) (name v : List Char) (hn : c ∉ name)
    (hc : c ≠ ':') (hv : c ∉ v) : c ∉ name ++ ':' :: v := by
  intro hm
  rcases List.mem_append.mp hm with h1 | h2
  · exact hn h1
  · rcases List.mem_cons.mp h2 with h3 | h4
    · exact hc h3
    · exact hv h4

theorem runLines_cons (st : SseEventParser) (l : List Char)
    (ls : List (List Char)) :
    runLines st (l :: ls) =
      ((runLines (st.processLine (stripTrailingCR l)).1 ls).1,
       (st.processLine (stripTrailingCR l)).2.toList ++
         (runLines (st.processLine (stripTrailingCR l)).1 ls).2) := by
  simp [runLines]

theorem runLines_data (st : SseEventParser) (segs : List (List Char))
    (hhd : ∀ s ∈ segs, s.head? ≠ some ' ')
    (hcr : ∀ s ∈ segs, s.getLast? ≠ some '\r') :
    runLines st (segs.map (fun s => str "data" ++ ':' :: s)) =
      ({ st with currentEvent := { st.currentEvent with
          data := appendSegs st.currentEvent.data segs } }, []) := by
  induction segs generalizing st with
  | nil => simp [runLines, appendSegs]
  | cons s segs ih =>
    have hstrip : stripTrailingCR (str "data" ++ ':' :: s) =
        str "data" ++ ':' :: s :=
      stripTrailingCR_eq (getLast?_field_line _ (hcr s (List.mem_cons_self s segs)))
    rw [List.map_cons, runLines_cons, hstrip,
        processLine_data_set st (hhd s (List.mem_cons_self s segs))]
    rw [ih _ (fun x hx => hhd x (List.mem_cons_of_mem _ hx))
          (fun x hx => hcr x (List.mem_cons_of_mem _ hx))]
    simp only [Option.toList_none, List.nil_append]
    unfold appendSegs
    rw [List.foldl_cons]

theorem isEmpty_false_of_ne_nil {l : List Char} (h : l ≠ []) :
    l.isEmpty = false := by
  cases l
  · exact absurd rfl h
  · rfl

theorem runLines_dispatch (st : SseEventParser) :
    runLines st [[]] = (st.dispatchEvent.1, st.dispatchEvent.2.toList) := by
  simp [runLines, stripTrailingCR, SseEventParser.processLine]

theorem dispatch_valid (st : SseEventParser)
    (hv : st.currentEvent.data.isEmpty = false)
    (hev : st.currentEvent.event.isEmpty = false) :
    st.dispatchEvent =
      ({ st with currentEvent := SseEvent.newEvent }, some st.currentEvent) := by
  unfold SseEventParser.dispatchEvent SseEvent.isValid
  rw [hv, hev]
  simp

theorem runLines_tail (e : SseEvent) (st : SseEventParser)
    (hcur : st.currentEvent = ⟨e.event, [], e.id, e.retry⟩)
    (hlast : st.lastEventId = e.id)
    (hev_ie : e.event.isEmpty = false)
    (hd_ne : e.data ≠ [])
    (hd_hd : e.data.head? ≠ some '\n')
    (hd_last : e.data.getLast? ≠ some '\n')
    (hseg_sp : ∀ s ∈ getlines e.data, s.head? ≠ some ' ')
    (hseg_cr : ∀ s ∈ getlines e.data, s.getLast? ≠ some '\r') :
    runLines st ((getlines e.data).map (fun s => str "data" ++ ':' :: s) ++ [[]]) =
      ({ currentEvent := SseEvent.newEvent, lastEventId := e.id }, [e]) := by
  rw [runLines_append, runLines_data st _ hseg_sp hseg_cr]
  have hdata : appendSegs st.currentEvent.data (getlines e.data) = e.data := by
    rw [hcur]
    exact appendSegs_getlines hd_ne hd_hd hd_last
  rw [hdata]
  set st4 : SseEventParser :=
    { st with currentEvent := { st.currentEvent with data := e.data } } with hst4
  have hcur4 : st4.currentEvent = ⟨e.event, e.data, e.id, e.retry⟩ := by
    rw [hst4, hcur]
  rw [runLines_dispatch]
  rw [dispatch_valid st4 (by rw [hcur4]; exact isEmpty_false_of_ne_nil hd_ne)
        (by rw [hcur4]; exact hev_ie)]
  rw [hcur4]
  have hl4 : st4.lastEventId = e.id := hlast
  simp [hl4, hlast]

theorem head?_ne_of_all_digits {v : List Char}
    (h : ∀ c ∈ v, c.isDigit = true) : v.head? ≠ some ' ' := by
  cases v with
  | nil => simp
  | cons a as =>
    intro h2
    obtain rfl : a = ' ' := by simpa using h2
    exact absurd (h ' ' (List.mem_cons_self _ _)) (by decide)

theorem digits_guard {v : List Char} (hne : v ≠ [])
    (h : ∀ c ∈ v, c.isDigit = true) :
    (!v.isEmpty && v.all Char.isDigit) = true := by
  rw [isEmpty_false_of_ne_nil hne]
  simp only [Bool.not_false, Bool.true_and, List.all_eq_true]
  exact h

theorem stripCR_digit_line (name : List Char) {v : List Char}
    (hdig : ∀ c ∈ v, c.isDigit = true) :
    stripTrailingCR (name ++ ':' :: v) = name ++ ':' :: v := by
  refine stripTrailingCR_eq (getLast?_field_line _ ?_)
  intro h2
  exact absurd (hdig '\r' (List.mem_of_mem_getLast? h2)) (by decide)

theorem runLines_cons_none {st st' : SseEventParser} {l : List Char}
    (h : st.processLine (stripTrailingCR l) = (st', none))
    (ls : List (List Char)) :
    runLines st (l :: ls) = runLines st' ls := by
  rw [runLines_cons, h]
  simp

theorem runLines_format (e : SseEvent)
    (hev_ne : e.event ≠ [])
    (hev_cr : e.event.getLast? ≠ some '\r')
    (hev_sp : e.event.head? ≠ some ' ')
    (hid : e.id = [] ∨ (e.id ≠ [] ∧ e.id.getLast? ≠ some '\r' ∧
           e.id.head? ≠ some ' ' ∧ e.id.contains '\x00' = false))
    (hretry : 0 ≤ e.retry)
    (hd_ne : e.data ≠ [])
    (hd_hd : e.data.head? ≠ some '\n')
    (hd_last : e.data.getLast? ≠ some '\n')
    (hseg_sp : ∀ s ∈ getlines e.data, s.head? ≠ some ' ')
    (hseg_cr : ∀ s ∈ getlines e.data, s.getLast? ≠ some '\r') :
    runLines SseEventParser.init (formatLines e) =
      ({ currentEvent := SseEvent.newEvent, lastEventId := e.id }, [e]) := by
  have hev_ie := isEmpty_false_of_ne_nil hev_ne
  have hd_ie := isEmpty_false_of_ne_nil hd_ne
  have step_ev : SseEventParser.init.processLine
      (stripTrailingCR (str "event" ++ ':' :: e.event)) =
      ((⟨⟨e.event, [], [], 0⟩, []⟩ : SseEventParser), none) := by
    rw [stripTrailingCR_eq (getLast?_field_line (str "event") hev_cr)]
    exact processLine_event_set _ hev_sp
  have hato : atoiDigits (natToDec e.retry.toNat) = e.retry := by
    rw [(natToDec_spec e.retry.toNat).2.2, Int.toNat_of_nonneg hretry]
  unfold formatLines
  rw [hev_ie, hd_ie]
  rw [show str "event:" ++ e.event = str "event" ++ ':' :: e.event from rfl,
      show str "id:" ++ e.id = str "id" ++ ':' :: e.id from rfl,
      show str "retry:" ++ natToDec e.retry.toNat
        = str "retry" ++ ':' :: natToDec e.retry.toNat from rfl,
      show (fun s : List Char => str "data:" ++ s)
        = (fun s : List Char => str "data" ++ ':' :: s) from rfl]
  simp only [Bool.false_eq_true, if_false]
  rcases hid with hid0 | ⟨hid_ne, hid_cr, hid_sp, hid_nul⟩
  · have hid_ie : e.id.isEmpty = true := by rw [hid0]; rfl
    rw [hid_ie]
    simp only [if_true]
    rcases Int.lt_or_le 0 e.retry with hrp | hr0
    · rw [if_pos hrp]
      have step_r : (⟨⟨e.event, [], [], 0⟩, []⟩ : SseEventParser).processLine
          (stripTrailingCR (str "retry" ++ ':' :: natToDec e.retry.toNat)) =
          ((⟨⟨e.event, [], [], e.retry⟩, []⟩ : SseEventParser), none) := by
        rw [stripCR_digit_line (str "retry") (natToDec_spec _).2.1]
        rw [processLine_retry_set _ (head?_ne_of_all_digits (natToDec_spec _).2.1)
              (digits_guard (natToDec_spec _).1 (natToDec_spec _).2.1)]
        rw [hato]
      simp only [List.nil_append, List.singleton_append, List.cons_append]
      rw [runLines_cons_none step_ev, runLines_cons_none step_r]
      exact runLines_tail e _ (by rw [hid0]) (by rw [hid0]) hev_ie hd_ne hd_hd
        hd_last hseg_sp hseg_cr
    · have hr00 : e.retry = 0 := le_antisymm hr0 hretry
      rw [if_neg (by omega)]
      simp only [List.nil_append, List.append_nil, List.singleton_append,
        List.cons_append]
      rw [runLines_cons_none step_ev]
      exact runLines_tail e _ (by rw [hid0, hr00]) (by rw [hid0]) hev_ie hd_ne
        hd_hd hd_last hseg_sp hseg_cr
  · have hid_ie : e.id.isEmpty = false := isEmpty_false_of_ne_nil hid_ne
    rw [hid_ie]
    simp only [Bool.false_eq_true, if_false]
    have step_id : (⟨⟨e.event, [], [], 0⟩, []⟩ : SseEventParser).processLine
        (stripTrailingCR (str "id" ++ ':' :: e.id)) =
        ((⟨⟨e.event, [], e.id, 0⟩, e.id⟩ : SseEventParser), none) := by
      rw [stripTrailingCR_eq (getLast?_field_line (str "id") hid_cr)]
      exact processLine_id_set _ hid_sp hid_nul
    rcases Int.lt_or_le 0 e.retry with hrp | hr0
    · rw [if_pos hrp]
      have step_r : (⟨⟨e.event, [], e.id, 0⟩, e.id⟩ : SseEventParser).processLine
          (stripTrailingCR (str "retry" ++ ':' :: natToDec e.retry.toNat)) =
          ((⟨⟨e.event, [], e.id, e.retry⟩, e.id⟩ : SseEventParser), none) := by
        rw [stripCR_digit_line (str "retry") (natToDec_spec _).2.1]
        rw [processLine_retry_set _ (head?_ne_of_all_digits (natToDec_spec _).2.1)
              (digits_guard (natToDec_spec _).1 (natToDec_spec _).2.1)]
        rw [hato]
      simp only [List.nil_append, List.singleton_append, List.cons_append]
      rw [runLines_cons_none step_ev, runLines_cons_none step_id,
          runLines_cons_none step_r]
      exact runLines_tail e _ rfl rfl hev_ie hd_ne hd_hd hd_last hseg_sp hseg_cr
    · have hr00 : e.retry = 0 := le_antisymm hr0 hretry
      rw [if_neg (by omega)]
      simp only [List.nil_append, List.append_nil, List.singleton_append,
        List.cons_append]
      rw [runLines_cons_none step_ev, runLines_cons_none step_id]
      exact runLines_tail e _ (by rw [hr00]) rfl hev_ie hd_ne hd_hd hd_last
        hseg_sp hseg_cr

theorem getlines_segments_no_newline (data : List Char) :
    ∀ s ∈ getlines data, '\n' ∉ s :=
  getlines_no_newline (by simp)

/-- C2 (amended).  For every *wire-safe* event with non-empty data —
type non-empty, free of line terminators, not ending in CR and not
starting with a space; id either empty or likewise well-formed and
NUL-free; retry non-negative; data neither starting nor ending with a
newline, with no payload line starting with a space or ending in CR —
formatting with `SseWriter::formatEvent` and feeding the bytes to a
fresh decoder dispatches exactly one event whose type, data, id and
retry equal the original's, leaves no bytes buffered, and installs the
id as the sticky last-event-id.  (As stated the claim fails — see the
counterexample: data `"\n"` round-trips to *zero* events, and an empty
type comes back as `"message"`.) -/
theorem format_decode_roundtrip (e : SseEvent)
    (hev_ne : e.event ≠ [])
    (hev_nl : '\n' ∉ e.event)
    (hev_cr : e.event.getLast? ≠ some '\r')
    (hev_sp : e.event.head? ≠ some ' ')
    (hid : e.id = [] ∨ (e.id ≠ [] ∧ '\n' ∉ e.id ∧ e.id.getLast? ≠ some '\r' ∧
           e.id.head? ≠ some ' ' ∧ e.id.contains '\x00' = false))
    (hretry : 0 ≤ e.retry)
    (hd_ne : e.data ≠ [])
    (hd_hd : e.data.head? ≠ some '\n')
    (hd_last : e.data.getLast? ≠ some '\n')
    (hseg_sp : ∀ s ∈ getlines e.data, s.head? ≠ some ' ')
    (hseg_cr : ∀ s ∈ getlines e.data, s.getLast? ≠ some '\r') :
    SseEventParser.init.parse (SseWriter.formatEvent e) =
      ⟨{ currentEvent := SseEvent.newEvent, lastEventId := e.id }, [], [e]⟩ := by
  have hid_nl : '\n' ∉ e.id := by
    rcases hid with h0 | ⟨_, hnl, _, _, _⟩
    · rw [h0]
      simp
    · exact hnl
  have hlines : ∀ l ∈ formatLines e, '\n' ∉ l := by
    intro l hl
    unfold formatLines at hl
    rcases List.mem_append.mp hl with hl | hl
    · rcases List.mem_append.mp hl with hl | hl
      · rcases List.mem_append.mp hl with hl | hl
        · rcases List.mem_append.mp hl with hl | hl
          · split at hl
            · simp at hl
            · rw [List.mem_singleton] at hl
              subst hl
              exact not_mem_field_line '\n' (str "event") e.event (by decide)
                (by decide) hev_nl
          · split at hl
            · simp at hl
            · rw [List.mem_singleton] at hl
              subst hl
              exact not_mem_field_line '\n' (str "id") e.id (by decide)
                (by decide) hid_nl
        · split at hl
          · rw [List.mem_singleton] at hl
            subst hl
            refine not_mem_field_line '\n' (str "retry") (natToDec e.retry.toNat)
              (by decide) (by decide) ?_
            intro hm
            exact absurd ((natToDec_spec e.retry.toNat).2.1 '\n' hm) (by decide)
          · simp at hl
      · split at hl
        · rw [List.mem_singleton] at hl
          subst hl
          decide
        · rw [List.mem_map] at hl
          obtain ⟨s, hs, rfl⟩ := hl
          exact not_mem_field_line '\n' (str "data") s (by decide) (by decide)
            (getlines_segments_no_newline e.data s hs)
    · rw [List.mem_singleton] at hl
      subst hl
      simp
  unfold SseWriter.formatEvent
  rw [parse_joinLines _ _ hlines]
  rw [runLines_format e hev_ne hev_cr hev_sp ?hid2 hretry hd_ne hd_hd hd_last
        hseg_sp hseg_cr]
  case hid2 =>
    rcases hid with h0 | ⟨hne, _, hcr, hsp, hnul⟩
    · exact Or.inl h0
    · exact Or.inr ⟨hne, hcr, hsp, hnul⟩

/-- Witness for C2: the event `{x, "a\nb", 7, 25}` round-trips
exactly, multi-line data included. -/
theorem format_decode_roundtrip_witness :
    SseEventParser.init.parse
        (SseWriter.formatEvent ⟨str "x", str "a\nb", str "7", 25⟩) =
      ⟨{ currentEvent := SseEvent.newEvent, lastEventId := str "7" }, [],
        [⟨str "x", str "a\nb", str "7", 25⟩]⟩ :=
  format_decode_roundtrip ⟨str "x", str "a\nb", str "7", 25⟩
    (by decide) (by decide) (by decide) (by decide)
    (Or.inr ⟨by decide, by decide, by decide, by decide, by decide⟩)
    (by decide) (by decide) (by decide) (by decide) (by decide) (by decide)

end drogon
